import Mathlib

/-!
# Verification of the windowed attack-detection engine

A shallow embedding of `src/Python/Attack_detecktion.py` (a log-tailing
intrusion detector): the record parser `parse_line`, the per-window
aggregation and detection rules `analyze_window`, the per-line transform of
the tail source `tail_log`, and one step of the scheduler loop in `main`.

Modelling conventions:
* Python `datetime` values are represented by their ISO text; the standard
  library parser `datetime.fromisoformat` is a parameter `isoP` returning the
  parsed value's text, and `.isoformat()` is the identity on this
  representation.  Likewise Python's `int(...)` conversion is a parameter
  `intP`. `isoSample`/`intSample` below are concrete instantiations used to
  evaluate theorems on concrete inputs; every line they accept is accepted by
  the Python functions they instantiate.
* `datetime.datetime.now(timezone.utc).isoformat()` (the evaluation-time
  timestamp in `analyze_window`) is passed in as the argument `now`.
* Python's insertion-ordered `Counter`/dict is modelled by an association
  list: `counterAdd` increments the first entry holding the key, keeping its
  position, and appends a fresh `(key, 1)` entry at the end when the key is
  absent — exactly `c[k] += 1` on a `collections.Counter`.
* `str.split(',')` and `str.strip()` are modelled character-list by
  character-list (`pySplitComma`, `pyStrip`), since the fixed separator is a
  single character and `strip()` removes ASCII whitespace from both ends.
-/

set_option maxRecDepth 40000

namespace AttackDetection

/-- One parsed connection record: the tuple `(ts, src, dst, port, proto)`
returned by `parse_line`. `ts` is the ISO text of the parsed datetime. -/
structure Record where
  ts : String
  src : String
  dst : String
  port : Int
  proto : String
deriving DecidableEq

/-- One flagged event, the 7-tuple appended to `events` in `analyze_window`:
`(timestamp, src, dst, port, proto, magnitude, reason)`.  The threshold
events fill destination, port and protocol with empty values; the empty
Python string in the port position is `none`. -/
structure Event where
  ts : String
  src : String
  dst : String
  port : Option Int
  proto : String
  magnitude : Nat
  reason : String
deriving DecidableEq

/-- `ANALYSIS_INTERVAL = 300` (seconds). -/
def ANALYSIS_INTERVAL : Nat := 300

/-- `CONNECTION_THRESHOLD = 100`. -/
def CONNECTION_THRESHOLD : Nat := 100

/-- `VOLUME_THRESHOLD = 100`. -/
def VOLUME_THRESHOLD : Nat := 100

/-- `UNUSUAL_PORTS = set(range(1, 1024)) - {22, 80, 443}` — the ports
`1, …, 1023` with the three well-known ports removed.  `range(1, 1024)`
is `List.range' 1 1023`; the set difference is a filter. -/
def UNUSUAL_PORTS : List Int :=
  ((List.range' 1 1023).map Int.ofNat).filter
    (fun p => !(p == 22 || p == 80 || p == 443))

/-- Membership in the unusual-port set, characterised arithmetically. -/
theorem mem_UNUSUAL_PORTS (p : Int) :
    p ∈ UNUSUAL_PORTS ↔ (1 ≤ p ∧ p ≤ 1023 ∧ p ≠ 22 ∧ p ≠ 80 ∧ p ≠ 443) := by
  unfold UNUSUAL_PORTS
  simp only [List.mem_filter, List.mem_map, List.mem_range'_1, Int.ofNat_eq_coe]
  constructor
  · rintro ⟨⟨n, ⟨h1, h2⟩, rfl⟩, hb⟩
    simp only [Bool.not_eq_true', Bool.or_eq_false_iff, beq_eq_false_iff_ne] at hb
    refine ⟨by exact_mod_cast h1, by omega, hb.1.1, hb.1.2, hb.2⟩
  · rintro ⟨h1, h2, h22, h80, h443⟩
    refine ⟨⟨p.toNat, ⟨?_, ?_⟩, ?_⟩, ?_⟩
    · omega
    · omega
    · omega
    · simp only [Bool.not_eq_true', Bool.or_eq_false_iff, beq_eq_false_iff_ne]
      exact ⟨⟨h22, h80⟩, h443⟩

/-- `c[k] += 1` on an insertion-ordered `collections.Counter`: the first (and,
in execution, only) entry holding `k` is incremented in place, keeping its
position; an absent key is appended at the end with count 1. -/
def counterAdd {κ : Type} [DecidableEq κ] : List (κ × Nat) → κ → List (κ × Nat)
  | [], k => [(k, 1)]
  | p :: rest, k => if p.1 = k then (p.1, p.2 + 1) :: rest else p :: counterAdd rest k

/-- A `Counter` built by adding every key of `ks` in order to an empty one. -/
def buildCounter {κ : Type} [DecidableEq κ] (ks : List κ) : List (κ × Nat) :=
  ks.foldl counterAdd []

/-- Dictionary lookup with 0 for a missing key (a `Counter`'s default). -/
def lookupC {κ : Type} [DecidableEq κ] : List (κ × Nat) → κ → Nat
  | [], _ => 0
  | p :: rest, k => if p.1 = k then p.2 else lookupC rest k

/-- The mutable state built by step 1 of `analyze_window`: `src_count`,
`dst_count` and `port_flags` exactly as the loop over `records` fills them. -/
structure WindowAcc where
  src_count : List (String × Nat)
  dst_count : List ((String × String) × Nat)
  port_flags : List (Record × String)

/-- One iteration of step 1 of `analyze_window`:
`src_count[src] += 1; dst_count[(src, dst)] += 1;` and, when the port is
unusual, `port_flags.append((ts, src, dst, port, proto, 'Unusual port'))`
(the record's fields are kept as the record itself, paired with the reason). -/
def acceptRecord (a : WindowAcc) (r : Record) : WindowAcc :=
  { src_count := counterAdd a.src_count r.src
    dst_count := counterAdd a.dst_count (r.src, r.dst)
    port_flags :=
      if r.port ∈ UNUSUAL_PORTS then a.port_flags ++ [(r, "Unusual port")]
      else a.port_flags }

/-- Step 1 of `analyze_window`: the loop `for ts, src, dst, port, proto in
records`, starting from empty counters and an empty flag list. -/
def aggregate (records : List Record) : WindowAcc :=
  records.foldl acceptRecord ⟨[], [], []⟩

/-- The event built from one `port_flags` entry in step 3 of `analyze_window`:
`(ts.isoformat(), src, dst, port, proto, 1, reason)` with reason
`'Unusual port'`. -/
def mkPortEvent (r : Record) : Event :=
  ⟨r.ts, r.src, r.dst, some r.port, r.proto, 1, "Unusual port"⟩

/-- The event built from one `flagged` entry in step 3 of `analyze_window`:
`(datetime.now(timezone.utc).isoformat(), src, '', '', '', cnt, reason)`,
with the current timestamp passed in as `now`. -/
def mkFlaggedEvent (now : String) (f : String × Nat × String) : Event :=
  ⟨now, f.1, "", none, "", f.2.1, f.2.2⟩

/-- `analyze_window(records)`.  Step 1 is `aggregate`; step 2 builds
`flagged` — the sources over `CONNECTION_THRESHOLD`, then the
(source, destination) pairs over `VOLUME_THRESHOLD`, each with its reason
string; step 3 turns `port_flags` and then `flagged` into the event list.
The evaluation-time timestamp `datetime.now(timezone.utc).isoformat()` is
the argument `now`. -/
def analyze_window (now : String) (records : List Record) : List Event :=
  let w := aggregate records
  let flagged : List (String × Nat × String) :=
    (w.src_count.filter (fun p => CONNECTION_THRESHOLD < p.2)).map
      (fun p => (p.1, p.2, "High connection count"))
    ++ (w.dst_count.filter (fun p => VOLUME_THRESHOLD < p.2)).map
      (fun p => (p.1.1, p.2, "High volume to " ++ p.1.2))
  w.port_flags.map (fun p => ⟨p.1.ts, p.1.src, p.1.dst, some p.1.port, p.1.proto, 1, p.2⟩)
    ++ flagged.map (mkFlaggedEvent now)

/-- Python ASCII whitespace, the characters `str.strip()` removes (Python
also strips some further Unicode space characters; the inputs here are
ASCII log lines). -/
def isPySpace (c : Char) : Bool :=
  c = ' ' || c = '\t' || c = '\n' || c = '\r' || c = '\x0b' || c = '\x0c'

/-- `str.strip()` on a character list: drop whitespace from the front, then
from the back. -/
def pyStripChars (l : List Char) : List Char :=
  ((l.dropWhile isPySpace).reverse.dropWhile isPySpace).reverse

/-- `line.strip()`. -/
def pyStrip (s : String) : String := ⟨pyStripChars s.data⟩

/-- `line.split(',')` on a character list: the groups between commas, with
an empty group at each boundary, as Python's `str.split` with an explicit
single-character separator. -/
def pySplitCommaChars : List Char → List (List Char)
  | [] => [[]]
  | c :: rest =>
    if c = ',' then [] :: pySplitCommaChars rest
    else
      match pySplitCommaChars rest with
      | [] => [[c]]
      | g :: gs => (c :: g) :: gs

/-- `line.split(',')`. -/
def pySplitComma (s : String) : List String :=
  (pySplitCommaChars s.data).map (fun l => ⟨l⟩)

/-- `parse_line(line)`.  `[p.strip() for p in line.split(',')]`, the
five-field check, then `datetime.fromisoformat(parts[0])` (the parameter
`isoP`) and `int(parts[3])` (the parameter `intP`); the `try` block's
failure cases — either parser refusing its field — return `None`, as does a
field count other than 5.  The function is total: raising is modelled by
the `none` result.

The five-field check and the two field parses of `parse_line`, split out
over the already-trimmed field list (`isoP` before `intP`, as the `try`
block runs `datetime.fromisoformat(parts[0])` before `int(parts[3])`). -/
def parse_fields (isoP : String → Option String) (intP : String → Option Int) :
    List String → Option Record
  | [t, src, dst, portS, proto] =>
    match isoP t with
    | none => none
    | some ts =>
      match intP portS with
      | none => none
      | some port => some ⟨ts, src, dst, port, proto⟩
  | _ => none

/-- `parse_line(line)`: `[p.strip() for p in line.split(',')]` fed to the
field parser. -/
def parse_line (isoP : String → Option String) (intP : String → Option Int)
    (line : String) : Option Record :=
  parse_fields isoP intP ((pySplitComma line).map pyStrip)

/-- The transform `tail_log` applies to each raw line before yielding it:
`yield line.strip()`. -/
def tailYield (line : String) : String := pyStrip line

/-- A sample instantiation of `datetime.fromisoformat` for concrete
evaluation: it accepts exactly the texts `YYYY-MM-DDTHH:MM:SS` (all
fourteen placeholder positions decimal digits) and returns the text
unchanged; every string it accepts, Python's parser accepts too. -/
def isoSample (s : String) : Option String :=
  match s.data with
  | [y1, y2, y3, y4, '-', m1, m2, '-', d1, d2, 'T', h1, h2, ':', n1, n2, ':', s1, s2] =>
    if ([y1, y2, y3, y4, m1, m2, d1, d2, h1, h2, n1, n2, s1, s2].all Char.isDigit)
    then some s else none
  | _ => none

/-- The number a list of decimal digit characters denotes. -/
def digitsToNat (l : List Char) : Nat :=
  l.foldl (fun a c => a * 10 + (c.toNat - 48)) 0

/-- A sample instantiation of Python's `int(...)` for concrete evaluation:
an optional sign followed by one or more decimal digits; every string it
accepts, Python's `int` accepts too. -/
def intSample (s : String) : Option Int :=
  match s.data with
  | [] => none
  | '-' :: ds =>
    if ds.length ≠ 0 ∧ ds.all Char.isDigit then some (-(digitsToNat ds : Int)) else none
  | '+' :: ds =>
    if ds.length ≠ 0 ∧ ds.all Char.isDigit then some ((digitsToNat ds : Int)) else none
  | ds =>
    if ds.all Char.isDigit then some ((digitsToNat ds : Int)) else none

/-- The scheduler state `main` threads through its loop: the record
`buffer` and the window-start time `start` (seconds, as `time.time()`). -/
structure SchedState where
  buffer : List Record
  start : Nat
deriving DecidableEq

/-- One iteration of the `for line in log_iter` loop in `main`.  `rec` is
`parse_line(line)`; a valid record is appended to the buffer.  `tCheck` and
`tReset` are the two `time.time()` readings (the boundary check and the
timer reset); `now` is the evaluation-time timestamp `analyze_window`
attaches to threshold events.  The `try` block around analysis and dispatch
is summarised by `raises`: when it raises, the `except` clause only logs, so
the dispatched events are discarded (`none`) — and since `buffer.clear()`
and `start = time.time()` sit after the `try`/`except`, the state is reset
in both cases.  Returns the next state and the events the window dispatched
(`none` when no flush happened or the flush raised). -/
def scheduler_step (st : SchedState) (rec : Option Record) (tCheck tReset : Nat)
    (now : String) (raises : Bool) : SchedState × Option (List Event) :=
  let buf := match rec with
    | some r => st.buffer ++ [r]
    | none => st.buffer
  if ANALYSIS_INTERVAL ≤ tCheck - st.start then
    let dispatched := if raises then none else some (analyze_window now buf)
    (⟨[], tReset⟩, dispatched)
  else
    (⟨buf, st.start⟩, none)

/-! ## Counter lemmas -/

theorem counterAdd_cons {κ : Type} [DecidableEq κ] (a : κ) (b : Nat) (rest : List (κ × Nat))
    (k : κ) : counterAdd ((a, b) :: rest) k
      = if a = k then (a, b + 1) :: rest else (a, b) :: counterAdd rest k := rfl

theorem lookupC_cons {κ : Type} [DecidableEq κ] (a : κ) (b : Nat) (rest : List (κ × Nat))
    (k : κ) : lookupC ((a, b) :: rest) k = if a = k then b else lookupC rest k := rfl

theorem lookupC_counterAdd_self {κ : Type} [DecidableEq κ] (c : List (κ × Nat)) (k : κ) :
    lookupC (counterAdd c k) k = lookupC c k + 1 := by
  induction c with
  | nil => simp [counterAdd, lookupC]
  | cons p rest ih =>
    by_cases h : p.1 = k
    · simp [counterAdd, lookupC, h]
    · simp [counterAdd, lookupC, h, ih]

theorem lookupC_counterAdd_ne {κ : Type} [DecidableEq κ] (c : List (κ × Nat)) (k k' : κ)
    (h : k' ≠ k) : lookupC (counterAdd c k) k' = lookupC c k' := by
  induction c with
  | nil => simp [counterAdd, lookupC, Ne.symm h]
  | cons p rest ih =>
    by_cases hp : p.1 = k
    · simp [counterAdd, lookupC, hp, Ne.symm h]
    · simp [counterAdd, lookupC, hp, ih]

theorem mem_keys_counterAdd {κ : Type} [DecidableEq κ] (c : List (κ × Nat)) (k k' : κ) :
    k' ∈ (counterAdd c k).map Prod.fst ↔ k' ∈ c.map Prod.fst ∨ k' = k := by
  induction c with
  | nil => simp [counterAdd]
  | cons p rest ih =>
    obtain ⟨a, b⟩ := p
    rw [counterAdd_cons]
    by_cases hp : a = k
    · subst hp
      rw [if_pos rfl]
      simp only [List.map_cons, List.mem_cons]
      tauto
    · rw [if_neg hp]
      simp only [List.map_cons, List.mem_cons, ih]
      tauto

theorem nodup_keys_counterAdd {κ : Type} [DecidableEq κ] (c : List (κ × Nat)) (k : κ)
    (h : (c.map Prod.fst).Nodup) : ((counterAdd c k).map Prod.fst).Nodup := by
  induction c with
  | nil => simp [counterAdd]
  | cons p rest ih =>
    simp only [List.map_cons, List.nodup_cons] at h
    by_cases hp : p.1 = k
    · simp only [counterAdd, if_pos hp, List.map_cons, List.nodup_cons]
      exact ⟨h.1, h.2⟩
    · simp only [counterAdd, if_neg hp, List.map_cons, List.nodup_cons]
      refine ⟨?_, ih h.2⟩
      rw [mem_keys_counterAdd]
      rintro (hh | rfl)
      · exact h.1 hh
      · exact hp rfl

theorem lookupC_foldl {κ : Type} [DecidableEq κ] (ks : List κ) (c : List (κ × Nat)) (k : κ) :
    lookupC (ks.foldl counterAdd c) k
      = lookupC c k + ks.countP (fun x => decide (x = k)) := by
  induction ks generalizing c with
  | nil => simp
  | cons a ks ih =>
    rw [List.foldl_cons, ih]
    by_cases ha : a = k
    · subst ha
      rw [lookupC_counterAdd_self, List.countP_cons]
      simp
      omega
    · rw [lookupC_counterAdd_ne _ _ _ (Ne.symm ha), List.countP_cons]
      simp [ha]

theorem lookupC_buildCounter {κ : Type} [DecidableEq κ] (ks : List κ) (k : κ) :
    lookupC (buildCounter ks) k = ks.countP (fun x => decide (x = k)) := by
  have h := lookupC_foldl ks ([] : List (κ × Nat)) k
  simpa [lookupC, buildCounter] using h

theorem mem_keys_foldl {κ : Type} [DecidableEq κ] (ks : List κ) (c : List (κ × Nat)) (k : κ) :
    k ∈ (ks.foldl counterAdd c).map Prod.fst ↔ k ∈ c.map Prod.fst ∨ k ∈ ks := by
  induction ks generalizing c with
  | nil => simp
  | cons a ks ih =>
    rw [List.foldl_cons, ih, mem_keys_counterAdd]
    simp only [List.mem_cons]
    tauto

theorem mem_keys_buildCounter {κ : Type} [DecidableEq κ] (ks : List κ) (k : κ) :
    k ∈ (buildCounter ks).map Prod.fst ↔ k ∈ ks := by
  have h := mem_keys_foldl ks ([] : List (κ × Nat)) k
  simpa [buildCounter] using h

theorem nodup_keys_foldl {κ : Type} [DecidableEq κ] (ks : List κ) (c : List (κ × Nat))
    (h : (c.map Prod.fst).Nodup) : ((ks.foldl counterAdd c).map Prod.fst).Nodup := by
  induction ks generalizing c with
  | nil => exact h
  | cons a ks ih => exact ih _ (nodup_keys_counterAdd _ _ h)

theorem nodup_keys_buildCounter {κ : Type} [DecidableEq κ] (ks : List κ) :
    ((buildCounter ks).map Prod.fst).Nodup :=
  nodup_keys_foldl ks [] (by simp)

theorem mem_counter_iff {κ : Type} [DecidableEq κ] (c : List (κ × Nat))
    (h : (c.map Prod.fst).Nodup) (k : κ) (v : Nat) :
    (k, v) ∈ c ↔ k ∈ c.map Prod.fst ∧ v = lookupC c k := by
  induction c with
  | nil => simp
  | cons p rest ih =>
    obtain ⟨a, b⟩ := p
    simp only [List.map_cons, List.nodup_cons] at h
    by_cases hp : a = k
    · subst hp
      constructor
      · intro hm
        rcases List.mem_cons.1 hm with he | hm
        · cases he
          simp [lookupC]
        · exact absurd (List.mem_map_of_mem Prod.fst hm) h.1
      · rintro ⟨-, rfl⟩
        simp [lookupC]
    · rw [List.mem_cons]
      simp only [List.map_cons, List.mem_cons, lookupC, if_neg hp]
      rw [ih h.2]
      constructor
      · rintro (he | ⟨hm, rfl⟩)
        · cases he
          exact absurd rfl hp
        · exact ⟨Or.inr hm, rfl⟩
      · rintro ⟨hk | hm, rfl⟩
        · exact absurd hk.symm hp
        · exact Or.inr ⟨hm, rfl⟩

theorem countP_keyed {κ : Type} [DecidableEq κ] (c : List (κ × Nat))
    (h : (c.map Prod.fst).Nodup) (k : κ) (q : κ × Nat → Bool) :
    c.countP (fun p => decide (p.1 = k) && q p)
      = if k ∈ c.map Prod.fst ∧ q (k, lookupC c k) = true then 1 else 0 := by
  induction c with
  | nil => simp
  | cons p rest ih =>
    obtain ⟨a, b⟩ := p
    simp only [List.map_cons, List.nodup_cons] at h
    rw [List.countP_cons]
    by_cases hp : a = k
    · subst hp
      have h0 : rest.countP (fun p => decide (p.1 = a) && q p) = 0 := by
        rw [List.countP_eq_zero]
        intro p hp2
        simp only [Bool.and_eq_true, decide_eq_true_eq, not_and]
        intro he _
        exact h.1 (he ▸ List.mem_map_of_mem Prod.fst hp2)
      rw [h0]
      simp only [lookupC, if_pos rfl, List.map_cons, List.mem_cons]
      by_cases hq : q (a, b) = true
      · simp [hq]
      · simp [hq]
    · have hpred : (decide ((a, b).1 = k) && q (a, b)) = false := by
        simp [hp]
      rw [ih h.2, hpred]
      simp only [lookupC_cons, if_neg hp]
      have hmem : k ∈ ((a, b) :: rest).map Prod.fst ↔ k ∈ rest.map Prod.fst := by
        simp only [List.map_cons, List.mem_cons]
        constructor
        · rintro (rfl | hm)
          · exact absurd rfl hp
          · exact hm
        · exact Or.inr
      simp only [hmem]
      simp

/-! ## Decomposing `analyze_window` -/

theorem src_count_foldl (records : List Record) (a : WindowAcc) :
    (records.foldl acceptRecord a).src_count
      = (records.map (fun r => r.src)).foldl counterAdd a.src_count := by
  induction records generalizing a with
  | nil => rfl
  | cons r rs ih =>
    rw [List.foldl_cons, List.map_cons, List.foldl_cons, ih]
    rfl

theorem dst_count_foldl (records : List Record) (a : WindowAcc) :
    (records.foldl acceptRecord a).dst_count
      = (records.map (fun r => (r.src, r.dst))).foldl counterAdd a.dst_count := by
  induction records generalizing a with
  | nil => rfl
  | cons r rs ih =>
    rw [List.foldl_cons, List.map_cons, List.foldl_cons, ih]
    rfl

theorem port_flags_foldl (records : List Record) (a : WindowAcc) :
    (records.foldl acceptRecord a).port_flags
      = a.port_flags ++ (records.filter (fun r => decide (r.port ∈ UNUSUAL_PORTS))).map
          (fun r => (r, "Unusual port")) := by
  induction records generalizing a with
  | nil => simp
  | cons r rs ih =>
    rw [List.foldl_cons, ih, List.filter_cons]
    by_cases hu : r.port ∈ UNUSUAL_PORTS
    · simp [acceptRecord, hu]
    · simp [acceptRecord, hu]

theorem src_count_aggregate (records : List Record) :
    (aggregate records).src_count = buildCounter (records.map (fun r => r.src)) :=
  src_count_foldl records ⟨[], [], []⟩

theorem dst_count_aggregate (records : List Record) :
    (aggregate records).dst_count = buildCounter (records.map (fun r => (r.src, r.dst))) :=
  dst_count_foldl records ⟨[], [], []⟩

theorem port_flags_aggregate (records : List Record) :
    (aggregate records).port_flags
      = (records.filter (fun r => decide (r.port ∈ UNUSUAL_PORTS))).map
          (fun r => (r, "Unusual port")) := by
  have h := port_flags_foldl records ⟨[], [], []⟩
  simpa using h

/-- The events step 3 of `analyze_window` builds from `port_flags`: one per
recorded unusual-port hit, in arrival order, carrying the record's fields. -/
def portEvents (records : List Record) : List Event :=
  (records.filter (fun r => decide (r.port ∈ UNUSUAL_PORTS))).map mkPortEvent

/-- The events step 3 of `analyze_window` builds from the connection-count
entries of `flagged`. -/
def connEvents (now : String) (records : List Record) : List Event :=
  ((buildCounter (records.map (fun r => r.src))).filter
      (fun p => CONNECTION_THRESHOLD < p.2)).map
    (fun p => mkFlaggedEvent now (p.1, p.2, "High connection count"))

/-- The events step 3 of `analyze_window` builds from the volume entries of
`flagged`. -/
def volEvents (now : String) (records : List Record) : List Event :=
  ((buildCounter (records.map (fun r => (r.src, r.dst)))).filter
      (fun p => VOLUME_THRESHOLD < p.2)).map
    (fun p => mkFlaggedEvent now (p.1.1, p.2, "High volume to " ++ p.1.2))

theorem analyze_window_decomp (now : String) (records : List Record) :
    analyze_window now records
      = portEvents records ++ connEvents now records ++ volEvents now records := by
  unfold analyze_window portEvents connEvents volEvents
  dsimp only
  rw [src_count_aggregate, dst_count_aggregate, port_flags_aggregate]
  simp [List.map_map, List.map_append, List.append_assoc, mkPortEvent, Function.comp_def]

/-! ## The reason strings are mutually distinct -/

theorem hv_reason_ne_hcc (d : String) :
    "High volume to " ++ d ≠ "High connection count" := by
  intro h
  have h2 : ("High volume to ".data ++ d.data)[5]? = "High connection count".data[5]? := by
    rw [← String.data_append, h]
  rw [List.getElem?_append_left (by decide)] at h2
  simp at h2

theorem hv_reason_ne_up (d : String) : "High volume to " ++ d ≠ "Unusual port" := by
  intro h
  have h2 : ("High volume to " ++ d).length = ("Unusual port" : String).length :=
    congrArg String.length h
  rw [String.length_append] at h2
  have h15 : ("High volume to " : String).length = 15 := by decide
  have h12 : ("Unusual port" : String).length = 12 := by decide
  omega

theorem hv_reason_inj (d1 d2 : String) :
    "High volume to " ++ d1 = "High volume to " ++ d2 → d1 = d2 := by
  intro h
  have h2 : "High volume to ".data ++ d1.data = "High volume to ".data ++ d2.data := by
    rw [← String.data_append, ← String.data_append, h]
  have h3 : d1.data = d2.data := List.append_cancel_left h2
  cases d1
  cases d2
  exact congrArg String.mk h3

/-! ## Membership and counting in the three event segments -/

theorem mem_portEvents (records : List Record) (e : Event) :
    e ∈ portEvents records
      ↔ ∃ r ∈ records, r.port ∈ UNUSUAL_PORTS ∧ e = mkPortEvent r := by
  unfold portEvents
  simp only [List.mem_map, List.mem_filter, decide_eq_true_eq]
  constructor
  · rintro ⟨r, ⟨hm, hu⟩, rfl⟩
    exact ⟨r, hm, hu, rfl⟩
  · rintro ⟨r, hm, hu, rfl⟩
    exact ⟨r, ⟨hm, hu⟩, rfl⟩

theorem mem_connEvents (now : String) (records : List Record) (e : Event) :
    e ∈ connEvents now records
      ↔ ∃ s, CONNECTION_THRESHOLD < records.countP (fun r => decide (r.src = s))
          ∧ e = mkFlaggedEvent now
              (s, records.countP (fun r => decide (r.src = s)), "High connection count") := by
  unfold connEvents
  simp only [List.mem_map, List.mem_filter, decide_eq_true_eq]
  constructor
  · rintro ⟨p, ⟨hm, hc⟩, rfl⟩
    obtain ⟨a, b⟩ := p
    rw [mem_counter_iff _ (nodup_keys_buildCounter _)] at hm
    obtain ⟨-, rfl⟩ := hm
    rw [lookupC_buildCounter, List.countP_map] at hc ⊢
    exact ⟨a, hc, rfl⟩
  · rintro ⟨s, hc, rfl⟩
    refine ⟨(s, records.countP (fun r => decide (r.src = s))), ⟨?_, ?_⟩, ?_⟩
    · rw [mem_counter_iff _ (nodup_keys_buildCounter _), mem_keys_buildCounter,
        lookupC_buildCounter, List.countP_map]
      have hpos : 0 < records.countP (fun r => decide (r.src = s)) := by
        unfold CONNECTION_THRESHOLD at hc
        omega
      rw [List.countP_pos_iff] at hpos
      obtain ⟨r, hm, hr⟩ := hpos
      simp only [decide_eq_true_eq] at hr
      constructor
      · exact List.mem_map.2 ⟨r, hm, hr⟩
      · rfl
    · exact hc
    · rfl

theorem mem_volEvents (now : String) (records : List Record) (e : Event) :
    e ∈ volEvents now records
      ↔ ∃ s d, VOLUME_THRESHOLD
            < records.countP (fun r => decide ((r.src, r.dst) = (s, d)))
          ∧ e = mkFlaggedEvent now
              (s, records.countP (fun r => decide ((r.src, r.dst) = (s, d))),
                "High volume to " ++ d) := by
  unfold volEvents
  simp only [List.mem_map, List.mem_filter, decide_eq_true_eq]
  constructor
  · rintro ⟨p, ⟨hm, hc⟩, rfl⟩
    obtain ⟨⟨a, b⟩, v⟩ := p
    rw [mem_counter_iff _ (nodup_keys_buildCounter _)] at hm
    obtain ⟨-, rfl⟩ := hm
    rw [lookupC_buildCounter, List.countP_map] at hc ⊢
    exact ⟨a, b, hc, rfl⟩
  · rintro ⟨s, d, hc, rfl⟩
    refine ⟨((s, d), records.countP (fun r => decide ((r.src, r.dst) = (s, d)))), ⟨?_, ?_⟩, ?_⟩
    · rw [mem_counter_iff _ (nodup_keys_buildCounter _), mem_keys_buildCounter,
        lookupC_buildCounter, List.countP_map]
      have hpos : 0 < records.countP (fun r => decide ((r.src, r.dst) = (s, d))) := by
        unfold VOLUME_THRESHOLD at hc
        omega
      rw [List.countP_pos_iff] at hpos
      obtain ⟨r, hm, hr⟩ := hpos
      simp only [decide_eq_true_eq] at hr
      constructor
      · exact List.mem_map.2 ⟨r, hm, hr⟩
      · rfl
    · exact hc
    · rfl

theorem reason_portEvents (records : List Record) (e : Event)
    (h : e ∈ portEvents records) : e.reason = "Unusual port" := by
  rw [mem_portEvents] at h
  obtain ⟨r, -, -, rfl⟩ := h
  rfl

theorem reason_connEvents (now : String) (records : List Record) (e : Event)
    (h : e ∈ connEvents now records) : e.reason = "High connection count" := by
  rw [mem_connEvents] at h
  obtain ⟨s, -, rfl⟩ := h
  rfl

theorem reason_volEvents (now : String) (records : List Record) (e : Event)
    (h : e ∈ volEvents now records) : ∃ d, e.reason = "High volume to " ++ d := by
  rw [mem_volEvents] at h
  obtain ⟨s, d, -, rfl⟩ := h
  exact ⟨d, rfl⟩

/-! ## Counting events by reason -/

theorem countP_hcc_portEvents (records : List Record) (s : String) :
    (portEvents records).countP
        (fun e => decide (e.reason = "High connection count" ∧ e.src = s)) = 0 := by
  rw [List.countP_eq_zero]
  intro e he
  have hr := reason_portEvents records e he
  simp only [decide_eq_true_eq, not_and]
  intro hc
  rw [hr] at hc
  exact absurd hc (by decide)

theorem countP_hcc_volEvents (now : String) (records : List Record) (s : String) :
    (volEvents now records).countP
        (fun e => decide (e.reason = "High connection count" ∧ e.src = s)) = 0 := by
  rw [List.countP_eq_zero]
  intro e he
  obtain ⟨d, hd⟩ := reason_volEvents now records e he
  simp only [decide_eq_true_eq, not_and]
  intro hc
  rw [hd] at hc
  exact absurd hc (hv_reason_ne_hcc d)

theorem countP_hcc_connEvents (now : String) (records : List Record) (s : String) :
    (connEvents now records).countP
        (fun e => decide (e.reason = "High connection count" ∧ e.src = s))
      = if CONNECTION_THRESHOLD < records.countP (fun r => decide (r.src = s))
        then 1 else 0 := by
  unfold connEvents
  rw [List.countP_map, List.countP_filter]
  rw [List.countP_congr (q := fun p : String × Nat =>
    decide (p.1 = s) && decide (CONNECTION_THRESHOLD < p.2)) (fun x _ => by
      simp [mkFlaggedEvent, Function.comp_def])]
  rw [countP_keyed _ (nodup_keys_buildCounter _) s
    (fun p => decide (CONNECTION_THRESHOLD < p.2))]
  simp only [lookupC_buildCounter, List.countP_map, mem_keys_buildCounter,
    Function.comp_def, decide_eq_true_eq]
  by_cases hk : CONNECTION_THRESHOLD < records.countP (fun r => decide (r.src = s))
  · have hmem : s ∈ records.map (fun r => r.src) := by
      have hpos : 0 < records.countP (fun r => decide (r.src = s)) := by
        unfold CONNECTION_THRESHOLD at hk
        omega
      rw [List.countP_pos_iff] at hpos
      obtain ⟨r, hm, hr⟩ := hpos
      simp only [decide_eq_true_eq] at hr
      exact List.mem_map.2 ⟨r, hm, hr⟩
    simp [hk, hmem]
  · simp [hk]

theorem countP_hv_portEvents (records : List Record) (s d : String) :
    (portEvents records).countP
        (fun e => decide (e.reason = "High volume to " ++ d ∧ e.src = s)) = 0 := by
  rw [List.countP_eq_zero]
  intro e he
  have hr := reason_portEvents records e he
  simp only [decide_eq_true_eq, not_and]
  intro hc
  rw [hr] at hc
  exact absurd hc.symm (hv_reason_ne_up d)

theorem countP_hv_connEvents (now : String) (records : List Record) (s d : String) :
    (connEvents now records).countP
        (fun e => decide (e.reason = "High volume to " ++ d ∧ e.src = s)) = 0 := by
  rw [List.countP_eq_zero]
  intro e he
  have hr := reason_connEvents now records e he
  simp only [decide_eq_true_eq, not_and]
  intro hc
  rw [hr] at hc
  exact absurd hc.symm (hv_reason_ne_hcc d)

theorem countP_hv_volEvents (now : String) (records : List Record) (s d : String) :
    (volEvents now records).countP
        (fun e => decide (e.reason = "High volume to " ++ d ∧ e.src = s))
      = if VOLUME_THRESHOLD
            < records.countP (fun r => decide ((r.src, r.dst) = (s, d)))
        then 1 else 0 := by
  unfold volEvents
  rw [List.countP_map, List.countP_filter]
  rw [List.countP_congr (q := fun p : (String × String) × Nat =>
    decide (p.1 = (s, d)) && decide (VOLUME_THRESHOLD < p.2)) (fun x _ => by
      simp only [Function.comp_apply, mkFlaggedEvent, Bool.and_eq_true, decide_eq_true_eq]
      constructor
      · rintro ⟨⟨hr, hs⟩, hv⟩
        refine ⟨?_, hv⟩
        have hd2 := hv_reason_inj _ _ hr
        exact Prod.ext hs hd2
      · rintro ⟨h1, hv⟩
        rw [h1]
        exact ⟨⟨rfl, rfl⟩, hv⟩)]
  rw [countP_keyed _ (nodup_keys_buildCounter _) (s, d)
    (fun p => decide (VOLUME_THRESHOLD < p.2))]
  simp only [lookupC_buildCounter, List.countP_map, mem_keys_buildCounter,
    Function.comp_def, decide_eq_true_eq]
  have hcp : records.countP (fun x => decide (x.src = s) && decide (x.dst = d))
      = records.countP (fun r => decide ((r.src, r.dst) = (s, d))) :=
    List.countP_congr (fun x _ => by simp [Prod.ext_iff])
  by_cases hk : VOLUME_THRESHOLD
      < records.countP (fun r => decide ((r.src, r.dst) = (s, d)))
  · have hpos : 0 < records.countP (fun r => decide ((r.src, r.dst) = (s, d))) := by
      unfold VOLUME_THRESHOLD at hk
      omega
    rw [List.countP_pos_iff] at hpos
    obtain ⟨r, hm, hr⟩ := hpos
    simp only [decide_eq_true_eq, Prod.mk.injEq] at hr
    have hex : ∃ a ∈ records, a.src = s ∧ a.dst = d := ⟨r, hm, hr⟩
    simp [hk, hex, hcp]
  · simp [hk, hcp]

/-! ## Filtering the unusual-port events out of the merged stream -/

theorem filter_up_analyze (now : String) (records : List Record) :
    (analyze_window now records).filter (fun e => decide (e.reason = "Unusual port"))
      = portEvents records := by
  rw [analyze_window_decomp, List.filter_append, List.filter_append]
  have h1 : (portEvents records).filter (fun e => decide (e.reason = "Unusual port"))
      = portEvents records := by
    rw [List.filter_eq_self]
    intro e he
    simp [reason_portEvents records e he]
  have h2 : (connEvents now records).filter
      (fun e => decide (e.reason = "Unusual port")) = [] := by
    rw [List.filter_eq_nil_iff]
    intro e he
    simp only [reason_connEvents now records e he, decide_eq_true_eq]
    decide
  have h3 : (volEvents now records).filter
      (fun e => decide (e.reason = "Unusual port")) = [] := by
    rw [List.filter_eq_nil_iff]
    intro e he
    obtain ⟨d, hd⟩ := reason_volEvents now records e he
    simp only [hd, decide_eq_true_eq]
    exact hv_reason_ne_up d
  rw [h1, h2, h3, List.append_nil, List.append_nil]

/-- Every event's source field is the source of some record of the window. -/
theorem event_src_mem (now : String) (records : List Record) (e : Event)
    (he : e ∈ analyze_window now records) : ∃ r ∈ records, e.src = r.src := by
  rw [analyze_window_decomp] at he
  rcases List.mem_append.1 he with he | he
  · rcases List.mem_append.1 he with he | he
    · rw [mem_portEvents] at he
      obtain ⟨r, hm, -, rfl⟩ := he
      exact ⟨r, hm, rfl⟩
    · rw [mem_connEvents] at he
      obtain ⟨s, hc, rfl⟩ := he
      have hpos : 0 < records.countP (fun r => decide (r.src = s)) := by
        unfold CONNECTION_THRESHOLD at hc
        omega
      rw [List.countP_pos_iff] at hpos
      obtain ⟨r, hm, hr⟩ := hpos
      simp only [decide_eq_true_eq] at hr
      exact ⟨r, hm, hr.symm⟩
  · rw [mem_volEvents] at he
    obtain ⟨s, d, hc, rfl⟩ := he
    have hpos : 0 < records.countP (fun r => decide ((r.src, r.dst) = (s, d))) := by
      unfold VOLUME_THRESHOLD at hc
      omega
    rw [List.countP_pos_iff] at hpos
    obtain ⟨r, hm, hr⟩ := hpos
    simp only [decide_eq_true_eq, Prod.mk.injEq] at hr
    exact ⟨r, hm, hr.1.symm⟩

/-! ## The claims -/

/-- C1: writing `k` for the number of records of the window whose source is
`s`, `analyze_window` emits exactly one "High connection count" event for `s`
when `k > 100` (so in particular at `k = 101`) and none when `k ≤ 100` (so in
particular at `k = 100`: the bound is strict), and any such event carries
magnitude `k`. -/
theorem high_connection_count_rule (now : String) (records : List Record) (s : String) :
    ((analyze_window now records).countP
        (fun e => decide (e.reason = "High connection count" ∧ e.src = s))
      = if CONNECTION_THRESHOLD < records.countP (fun r => decide (r.src = s))
        then 1 else 0)
    ∧ ∀ e ∈ analyze_window now records,
        e.reason = "High connection count" → e.src = s →
          e.magnitude = records.countP (fun r => decide (r.src = s)) := by
  constructor
  · rw [analyze_window_decomp, List.countP_append, List.countP_append,
      countP_hcc_portEvents, countP_hcc_connEvents, countP_hcc_volEvents]
    omega
  · intro e he hr hs
    rw [analyze_window_decomp] at he
    rcases List.mem_append.1 he with he | he
    · rcases List.mem_append.1 he with he | he
      · have hu := reason_portEvents records e he
        rw [hr] at hu
        exact absurd hu (by decide)
      · rw [mem_connEvents] at he
        obtain ⟨sₑ, hc, rfl⟩ := he
        have hse : sₑ = s := hs
        rw [hse]
        rfl
    · obtain ⟨d, hd⟩ := reason_volEvents now records e he
      rw [hr] at hd
      exact absurd hd.symm (hv_reason_ne_hcc d)

/-- C2 (amended): the "Unusual port" events of a window are exactly one event
per record whose port lies in `UNUSUAL_PORTS`, in arrival order, carrying that
record's own fields with magnitude 1 — and `UNUSUAL_PORTS` is the integer
ports `1 ≤ p ≤ 1023` outside `{22, 80, 443}`, so a record with port `0`,
a negative port, port `22`, `80`, `443`, or a port `≥ 1024` yields no such
event. -/
theorem unusual_port_rule (now : String) (records : List Record) :
    ((analyze_window now records).filter (fun e => decide (e.reason = "Unusual port"))
        = (records.filter (fun r => decide (r.port ∈ UNUSUAL_PORTS))).map mkPortEvent)
    ∧ ∀ p : Int, p ∈ UNUSUAL_PORTS ↔ (1 ≤ p ∧ p ≤ 1023 ∧ p ≠ 22 ∧ p ≠ 80 ∧ p ≠ 443) :=
  ⟨filter_up_analyze now records, mem_UNUSUAL_PORTS⟩

/-- C2 counterexample: port 0 is "below 1024" and none of 22, 80, 443, yet a
window holding exactly one record with port 0 produces no event at all — the
code's unusual set is `range(1, 1024)`, which starts at 1. -/
theorem unusual_port_rule_cex :
    (0 : Int) < 1024 ∧ ¬((0 : Int) = 22 ∨ (0 : Int) = 80 ∨ (0 : Int) = 443)
      ∧ analyze_window "T" [⟨"t", "s", "d", 0, "p"⟩] = [] :=
  ⟨by decide, by decide, by decide⟩

/-- C4: writing `k` for the number of records of the window with source `s`
and destination `d`, `analyze_window` emits exactly one event with reason
exactly `"High volume to " ++ d` and source `s` when `k > 100` and none when
`k ≤ 100`; any such event carries magnitude `k`, an empty destination field
(the destination lives only in the reason text) and the evaluation-time
timestamp.  Independently and in addition, the "High connection count" events
for `s` are exactly as the connection-count rule alone dictates. -/
theorem high_volume_rule (now : String) (records : List Record) (s d : String) :
    ((analyze_window now records).countP
        (fun e => decide (e.reason = "High volume to " ++ d ∧ e.src = s))
      = if VOLUME_THRESHOLD
            < records.countP (fun r => decide ((r.src, r.dst) = (s, d)))
        then 1 else 0)
    ∧ (∀ e ∈ analyze_window now records,
        e.reason = "High volume to " ++ d → e.src = s →
          e.magnitude = records.countP (fun r => decide ((r.src, r.dst) = (s, d)))
            ∧ e.dst = "" ∧ e.ts = now)
    ∧ ((analyze_window now records).countP
        (fun e => decide (e.reason = "High connection count" ∧ e.src = s))
      = if CONNECTION_THRESHOLD < records.countP (fun r => decide (r.src = s))
        then 1 else 0) := by
  refine ⟨?_, ?_, ?_⟩
  · rw [analyze_window_decomp, List.countP_append, List.countP_append,
      countP_hv_portEvents, countP_hv_connEvents, countP_hv_volEvents]
    omega
  · intro e he hr hs
    rw [analyze_window_decomp] at he
    rcases List.mem_append.1 he with he | he
    · rcases List.mem_append.1 he with he | he
      · have hu := reason_portEvents records e he
        rw [hr] at hu
        exact absurd hu (hv_reason_ne_up d)
      · have hu := reason_connEvents now records e he
        rw [hr] at hu
        exact absurd hu (hv_reason_ne_hcc d)
    · rw [mem_volEvents] at he
      obtain ⟨sₑ, dₑ, hc, rfl⟩ := he
      have hde : dₑ = d := hv_reason_inj _ _ hr
      have hse : sₑ = s := hs
      rw [hde, hse]
      exact ⟨rfl, rfl, rfl⟩
  · rw [analyze_window_decomp, List.countP_append, List.countP_append,
      countP_hcc_portEvents, countP_hcc_connEvents, countP_hcc_volEvents]
    omega

/-- C7: the merged event stream is ordered by rule class — first every
"Unusual port" event (one per flagged record, in arrival order), then every
"High connection count" event, then every "High volume to …" event; no event
of a later rule precedes one of an earlier rule. -/
theorem event_order (now : String) (records : List Record) :
    (analyze_window now records
        = portEvents records ++ connEvents now records ++ volEvents now records)
    ∧ (portEvents records
        = (records.filter (fun r => decide (r.port ∈ UNUSUAL_PORTS))).map mkPortEvent)
    ∧ (∀ e ∈ portEvents records, e.reason = "Unusual port")
    ∧ (∀ e ∈ connEvents now records, e.reason = "High connection count")
    ∧ (∀ e ∈ volEvents now records, ∃ d, e.reason = "High volume to " ++ d) :=
  ⟨analyze_window_decomp now records, rfl, reason_portEvents records,
    reason_connEvents now records, reason_volEvents now records⟩

/-- C8: an "Unusual port" event carries the triggering record's own fields —
in particular its timestamp — while every other event (the two threshold
rules) carries the evaluation-time timestamp `now`, not any record's own. -/
theorem event_timestamps (now : String) (records : List Record) :
    ∀ e ∈ analyze_window now records,
      (e.reason = "Unusual port" →
        ∃ r ∈ records, r.port ∈ UNUSUAL_PORTS ∧ e = mkPortEvent r)
      ∧ (e.reason ≠ "Unusual port" → e.ts = now) := by
  intro e he
  rw [analyze_window_decomp] at he
  rcases List.mem_append.1 he with he | he
  · rcases List.mem_append.1 he with he | he
    · rw [mem_portEvents] at he
      obtain ⟨r, hm, hu, rfl⟩ := he
      exact ⟨fun _ => ⟨r, hm, hu, rfl⟩, fun hne => absurd rfl hne⟩
    · rw [mem_connEvents] at he
      obtain ⟨s, hc, rfl⟩ := he
      refine ⟨fun hr => ?_, fun _ => rfl⟩
      have hcu : ("High connection count" : String) = "Unusual port" := hr
      exact absurd hcu (by decide)
  · rw [mem_volEvents] at he
    obtain ⟨s, d, hc, rfl⟩ := he
    refine ⟨fun hr => ?_, fun _ => rfl⟩
    have hup : "High volume to " ++ d = "Unusual port" := hr
    exact absurd hup (hv_reason_ne_up d)

/-- C8 witness: in the window holding the single record
`("t", "s", "d", 23, "TCP")`, the unusual-port event it produces satisfies
both conjuncts at the evaluation time "T". -/
theorem event_timestamps_witness :
    ((mkPortEvent ⟨"t", "s", "d", 23, "TCP"⟩).reason = "Unusual port" →
      ∃ r ∈ [(⟨"t", "s", "d", 23, "TCP"⟩ : Record)], r.port ∈ UNUSUAL_PORTS
        ∧ mkPortEvent ⟨"t", "s", "d", 23, "TCP"⟩ = mkPortEvent r)
    ∧ ((mkPortEvent ⟨"t", "s", "d", 23, "TCP"⟩).reason ≠ "Unusual port" →
      (mkPortEvent ⟨"t", "s", "d", 23, "TCP"⟩).ts = "T") :=
  event_timestamps "T" [⟨"t", "s", "d", 23, "TCP"⟩]
    (mkPortEvent ⟨"t", "s", "d", 23, "TCP"⟩) (by decide)

/-- C3 (amended): every flagged event's source is the source field of some
record accepted from the parsed input lines; consequently the invariant
"every FlaggedEvent's source_address is non-empty" holds exactly for windows
whose accepted records all have a non-empty source — the parser itself
accepts a line with an empty source field (see the counterexample). -/
theorem flagged_event_source (isoP : String → Option String) (intP : String → Option Int)
    (lines : List String) (now : String) :
    (∀ e ∈ analyze_window now (lines.filterMap (parse_line isoP intP)),
        ∃ r ∈ lines.filterMap (parse_line isoP intP), e.src = r.src)
    ∧ ((∀ r ∈ lines.filterMap (parse_line isoP intP), r.src ≠ "") →
        ∀ e ∈ analyze_window now (lines.filterMap (parse_line isoP intP)),
          e.src ≠ "") := by
  constructor
  · exact fun e he => event_src_mem now _ e he
  · intro hall e he
    obtain ⟨r, hm, hsrc⟩ := event_src_mem now _ e he
    rw [hsrc]
    exact hall r hm

/-- C3 counterexample: the parser accepts a line whose source field is empty
(five fields, timestamp and port parse), and the resulting unusual-port
event has an empty `source_address`. -/
theorem flagged_event_source_cex :
    ["2025-05-14T12:00:00,,10.0.0.1,23,TCP"].filterMap (parse_line isoSample intSample)
        = [⟨"2025-05-14T12:00:00", "", "10.0.0.1", 23, "TCP"⟩]
    ∧ ∃ e ∈ analyze_window "T"
          (["2025-05-14T12:00:00,,10.0.0.1,23,TCP"].filterMap
            (parse_line isoSample intSample)),
        e.src = "" :=
  ⟨by decide,
    ⟨⟨"2025-05-14T12:00:00", "", "10.0.0.1", some 23, "TCP", 1, "Unusual port"⟩,
      by decide, rfl⟩⟩

/-- C5: a line whose comma-split, whitespace-trimmed fields are exactly five,
whose first field the timestamp parser accepts and whose fourth the integer
parser accepts, parses to the record of those trimmed fields, with the port
as the parsed integer. -/
theorem parse_line_valid (isoP : String → Option String) (intP : String → Option Int)
    (line t src dst portS proto : String) (ts : String) (n : Int)
    (hsplit : (pySplitComma line).map pyStrip = [t, src, dst, portS, proto])
    (hts : isoP t = some ts) (hport : intP portS = some n) :
    parse_line isoP intP line = some ⟨ts, src, dst, n, proto⟩ := by
  unfold parse_line
  rw [hsplit]
  simp only [parse_fields]
  rw [hts, hport]

/-- C5 witness: the well-formed line of the repository's own unit test. -/
theorem parse_line_valid_witness :
    parse_line isoSample intSample "2025-05-14T12:00:00,192.168.0.1,10.0.0.1,80,TCP"
      = some ⟨"2025-05-14T12:00:00", "192.168.0.1", "10.0.0.1", 80, "TCP"⟩ :=
  parse_line_valid isoSample intSample
    "2025-05-14T12:00:00,192.168.0.1,10.0.0.1,80,TCP"
    "2025-05-14T12:00:00" "192.168.0.1" "10.0.0.1" "80" "TCP"
    "2025-05-14T12:00:00" 80 (by decide) (by decide) (by decide)

/-- C6: a line whose comma-split field count is not 5, or whose timestamp or
port field its parser refuses, parses to `none` — the embedding is a total
function, so "never raises" is the fact that every input yields a value. -/
theorem parse_line_invalid (isoP : String → Option String) (intP : String → Option Int)
    (line : String)
    (h : ((pySplitComma line).map pyStrip).length ≠ 5
       ∨ ∃ t src dst portS proto,
           (pySplitComma line).map pyStrip = [t, src, dst, portS, proto]
           ∧ (isoP t = none ∨ intP portS = none)) :
    parse_line isoP intP line = none := by
  unfold parse_line
  rcases hp : (pySplitComma line).map pyStrip with
    _ | ⟨t, _ | ⟨src, _ | ⟨dst, _ | ⟨portS, _ | ⟨proto, _ | ⟨x, rest⟩⟩⟩⟩⟩⟩
  · rfl
  · rfl
  · rfl
  · rfl
  · rfl
  · rw [hp] at h
    rcases h with h | ⟨t', src', dst', portS', proto', heq, hfail⟩
    · simp at h
    · injection heq with e1 heq
      injection heq with e2 heq
      injection heq with e3 heq
      injection heq with e4 heq
      injection heq with e5 heq
      subst e1
      subst e2
      subst e3
      subst e4
      subst e5
      simp only [parse_fields]
      rcases hfail with hf | hf
      · rw [hf]
      · cases hiso : isoP t with
        | none => rfl
        | some v =>
          simp [hf]
  · rfl

/-- C6 witness: the malformed line of the repository's own unit test. -/
theorem parse_line_invalid_witness :
    parse_line isoSample intSample "foo,bar" = none :=
  parse_line_invalid isoSample intSample "foo,bar" (Or.inl (by decide))

/-- The first element surviving `dropWhile p` falsifies `p`. -/
theorem head_dropWhile_false (p : Char → Bool) (l : List Char) (c : Char)
    (h : (l.dropWhile p).head? = some c) : p c = false := by
  induction l with
  | nil => simp [List.dropWhile] at h
  | cons a t ih =>
    rw [List.dropWhile_cons] at h
    by_cases hpa : p a = true
    · rw [if_pos hpa] at h
      exact ih h
    · rw [if_neg hpa] at h
      simp only [List.head?_cons, Option.some.injEq] at h
      subst h
      exact Bool.not_eq_true _ ▸ hpa

/-- C9 (amended): the tail source yields each raw line with whitespace
stripped from BOTH ends (`line.strip()`), not only its trailing line
terminator: the yielded text results from removing a whitespace prefix and a
whitespace suffix from the raw line, itself starts and ends in
non-whitespace, and the interior is untouched. -/
theorem tail_strip_spec (line : String) :
    ∃ pre post : List Char,
      line.data = pre ++ (tailYield line).data ++ post
      ∧ (∀ c ∈ pre, isPySpace c = true)
      ∧ (∀ c ∈ post, isPySpace c = true)
      ∧ (∀ c, (tailYield line).data.head? = some c → isPySpace c = false)
      ∧ (∀ c, (tailYield line).data.getLast? = some c → isPySpace c = false) := by
  have key : line.data.dropWhile isPySpace
      = ((line.data.dropWhile isPySpace).reverse.dropWhile isPySpace).reverse
        ++ ((line.data.dropWhile isPySpace).reverse.takeWhile isPySpace).reverse := by
    conv_lhs => rw [← List.reverse_reverse (line.data.dropWhile isPySpace)]
    conv_lhs => rw [← List.takeWhile_append_dropWhile
      (p := isPySpace) (l := (line.data.dropWhile isPySpace).reverse)]
    rw [List.reverse_append]
  refine ⟨line.data.takeWhile isPySpace,
    ((line.data.dropWhile isPySpace).reverse.takeWhile isPySpace).reverse,
    ?_, ?_, ?_, ?_, ?_⟩
  · show line.data = line.data.takeWhile isPySpace
        ++ ((line.data.dropWhile isPySpace).reverse.dropWhile isPySpace).reverse
        ++ ((line.data.dropWhile isPySpace).reverse.takeWhile isPySpace).reverse
    conv_lhs => rw [← List.takeWhile_append_dropWhile (p := isPySpace) (l := line.data)]
    conv_lhs => rw [key]
    rw [← List.append_assoc]
  · intro c hc
    exact List.mem_takeWhile_imp hc
  · intro c hc
    rw [List.mem_reverse] at hc
    exact List.mem_takeWhile_imp hc
  · intro c hc
    rcases hres : (tailYield line).data with _ | ⟨x, tl⟩
    · rw [hres] at hc
      exact absurd hc (by simp)
    · rw [hres] at hc
      simp only [List.head?_cons, Option.some.injEq] at hc
      have hres2 : ((line.data.dropWhile isPySpace).reverse.dropWhile isPySpace).reverse
          = x :: tl := hres
      have hhead : (line.data.dropWhile isPySpace).head? = some x := by
        rw [key, hres2]
        rfl
      rw [← hc]
      exact head_dropWhile_false _ _ _ hhead
  · intro c hc
    have h5 : (tailYield line).data.getLast?
        = ((line.data.dropWhile isPySpace).reverse.dropWhile isPySpace).head? := by
      show (((line.data.dropWhile isPySpace).reverse.dropWhile isPySpace).reverse).getLast? = _
      rw [List.getLast?_reverse]
    rw [h5] at hc
    exact head_dropWhile_false _ _ _ hc

/-- C9 counterexample: the raw line `"  foo\n"` is yielded as `"foo"`, not as
`"  foo"` (what stripping only the trailing terminator would give): leading
whitespace is not preserved. -/
theorem tail_strip_cex :
    tailYield "  foo\n" = "foo" ∧ tailYield "  foo\n" ≠ "  foo" :=
  ⟨by decide, by decide⟩

/-- C10: once the boundary check fires, the scheduler step ends in the same
post-state whether or not the analysis/dispatch block raised — the `except`
clause only logs, and the buffer clear and timer reset sit after the
`try`/`except` — so the loop always continues accumulating into a fresh
empty window; the step is a total function, so no downstream failure halts
ingestion. -/
theorem scheduler_recovers (st : SchedState) (rec : Option Record)
    (tCheck tReset : Nat) (now : String)
    (h : ANALYSIS_INTERVAL ≤ tCheck - st.start) :
    (scheduler_step st rec tCheck tReset now true).1 = ⟨[], tReset⟩
    ∧ (scheduler_step st rec tCheck tReset now true).1
        = (scheduler_step st rec tCheck tReset now false).1 := by
  unfold scheduler_step
  simp [h]

/-- C10 witness: a flush at the 300-second boundary with a raising dispatch
still resets the state. -/
theorem scheduler_recovers_witness :
    (scheduler_step ⟨[], 0⟩ none 300 300 "T" true).1 = (⟨[], 300⟩ : SchedState)
    ∧ (scheduler_step ⟨[], 0⟩ none 300 300 "T" true).1
        = (scheduler_step ⟨[], 0⟩ none 300 300 "T" false).1 :=
  scheduler_recovers ⟨[], 0⟩ none 300 300 "T" (by decide)

end AttackDetection
